import Mathlib

/-!
Verification of the gitcop repository-sync core against its
natural-language specification.

The definitions below are a shallow embedding of the Rust sources:
`src/config/types.rs`, `src/config/internal.rs`, `src/config.rs`,
`src/git.rs`, `src/cmd/sync.rs`, `src/cmd/common.rs` and `src/main.rs`.
Pure functions are translated to Lean functions; the poll-based
bounded-concurrency dispatcher is translated to an explicit small-step
transition relation on a state type; fallible code returns `Except`.
-/

set_option maxHeartbeats 1000000

deriving instance DecidableEq for Except

namespace Gitcop

/-! ## Repository descriptors (src/config/types.rs) -/

/-- `struct GitHub { user, project }` (types.rs lines 3-7). -/
structure GitHub where
  user : String
  project : String
deriving Repr, DecidableEq

/-- `GitHub::new` (types.rs lines 9-19). -/
def GitHub.new (user project : String) : GitHub :=
  { user := user, project := project }

/-- `enum Repo { GitHub(GitHub) }` (types.rs lines 21-24). -/
inductive Repo where
  | gitHub (g : GitHub)
deriving Repr, DecidableEq

/-- `impl Remote for GitHub { fn url }` (types.rs lines 30-39): the URL is
built by successive `push_str`/`push` calls starting from
`"https://github.com/"`. -/
def GitHub.url (g : GitHub) : String :=
  let u0 := "https://github.com/"
  let u1 := u0 ++ g.user
  let u2 := u1.push '/'
  let u3 := u2 ++ g.project
  let u4 := u3 ++ ".git"
  u4

/-- `impl Remote for Repo { fn url }` (types.rs lines 41-47). -/
def Repo.url : Repo → String
  | .gitHub g => g.url

/-- `enum Selection<T> { Explicit(T), Optional(T) }` (types.rs lines 49-53). -/
inductive Selection (T : Type) where
  | explicit (x : T)
  | optional (x : T)
deriving Repr, DecidableEq

/-- `Selection::repo` (types.rs lines 55-61). -/
def Selection.repo {T : Type} : Selection T → T
  | .explicit x => x
  | .optional x => x

/-! ## Concurrency configuration (src/config/internal.rs) -/

/-- `struct Concurrency(u16)` (internal.rs line 22); the payload is a
16-bit unsigned integer, modelled as a `Nat` together with the range
checks that the `u16` representation enforces at deserialization time. -/
structure Concurrency where
  value : Nat
deriving Repr, DecidableEq

/-- `impl Default for Concurrency` (internal.rs lines 30-34). -/
def Concurrency.default : Concurrency := ⟨10⟩

/-- `impl Deserialize for Concurrency` (internal.rs lines 101-115): serde
first decodes the raw TOML integer as a `u16`, rejecting anything outside
`0..=65535` (exercised by `test_parse_config_with_invalid_concur` in
config.rs lines 269-281); the code then rejects `0` explicitly. -/
def Concurrency.deserialize (n : Int) : Except String Concurrency :=
  if n < 0 ∨ 65535 < n then
    Except.error "invalid value: out of range for u16"
  else if n = 0 then
    Except.error "invalid value: 0, expected positive integer"
  else
    Except.ok ⟨n.toNat⟩

/-! ## Repo-spec parsing (src/config/internal.rs lines 36-89) -/

/-- `enum RepoSpec { Simple(String), Normal { type_, repo } }`
(internal.rs lines 36-45). -/
inductive RepoSpec where
  | simple (s : String)
  | normal (type_ : String) (repo : String)
deriving Repr, DecidableEq

/-- `enum ConfigError` (internal.rs lines 13-19). -/
inductive ConfigError where
  | invalidRepo (name : String)
  | unknownType (type_ : String)
deriving Repr, DecidableEq

/-- The regular expression `^([^/]+)(?:/([^/]+))?$` (internal.rs line 64):
a maximal nonempty slash-free owner segment, optionally followed by `/`
and a nonempty slash-free project segment.  Returns the captures
(group 1, optional group 2). -/
def matchRepoRe (cs : List Char) : Option (List Char × Option (List Char)) :=
  if (cs.takeWhile (· != '/')).isEmpty then
    none
  else
    match cs.dropWhile (· != '/') with
    | [] => some (cs.takeWhile (· != '/'), none)
    | _ :: rest2 =>
      if rest2.isEmpty then none
      else if rest2.all (· != '/') then some (cs.takeWhile (· != '/'), some rest2)
      else none

/-- `impl TryFrom<(&str, &RepoSpec)> for Repo` (internal.rs lines 59-89):
a `Normal` spec with a type other than `"github"` fails with
`UnknownType`; otherwise the repo string is matched against
`matchRepoRe`; on success group 1 is the owner and group 2, when absent,
defaults to the registry key; no match fails with `InvalidRepo`. -/
def Repo.tryFrom (key : String) (val : RepoSpec) : Except ConfigError Repo :=
  let specE : Except ConfigError String :=
    match val with
    | .simple s => Except.ok s
    | .normal type_ repo =>
      if type_ = "github" then Except.ok repo
      else Except.error (ConfigError.unknownType type_)
  match specE with
  | .error e => Except.error e
  | .ok spec =>
    match matchRepoRe spec.data with
    | some (owner, proj?) =>
      Except.ok (Repo.gitHub (GitHub.new (String.mk owner)
        (match proj? with
         | some p => String.mk p
         | none => key)))
    | none => Except.error (ConfigError.invalidRepo spec)

/-! ## Registry and resolution (src/config.rs) -/

/-- `struct RepoNotFound { name }` (config.rs lines 70-73). -/
structure RepoNotFound where
  name : String
deriving Repr, DecidableEq

/-- `struct Config` (config.rs lines 17-23), restricted to the fields the
sync core reads: the concurrency budget and the ordered registry
(`IndexMap<String, Selection<Repo>>`, modelled as an ordered association
list whose keys are unique). -/
structure Config where
  concur : Concurrency
  repos : List (String × Selection Repo)

/-- `Config::concurrency` (config.rs lines 34-36). -/
def Config.concurrency (cfg : Config) : Nat :=
  cfg.concur.value

/-- One step of `ReposIter::next` in `Selected` mode for a single
requested name (config.rs lines 86-100): look the name up; a found
`Optional` selection is re-tagged `Explicit`; other found selections are
yielded as they are; a missing name yields `RepoNotFound`. -/
def reposSelectedNext (cfg : Config) (n : String) :
    Except RepoNotFound (String × Selection Repo) :=
  match List.lookup n cfg.repos with
  | some sel =>
    match sel with
    | .optional repo => Except.ok (n, Selection.explicit repo)
    | _ => Except.ok (n, sel)
  | none => Except.error ⟨n⟩

/-- The full sequence produced by `ReposIter` in `Selected` mode
(config.rs lines 86-101): one item per requested name, in request
order. -/
def reposSelected (cfg : Config) (names : List String) :
    List (Except RepoNotFound (String × Selection Repo)) :=
  names.map (reposSelectedNext cfg)

/-- The full sequence produced by `ReposIter` in `All` mode (config.rs
lines 102-104): every registry entry in declaration order, tags kept. -/
def reposAll (cfg : Config) :
    List (Except RepoNotFound (String × Selection Repo)) :=
  cfg.repos.map (fun e => Except.ok e)

/-- `Config::repos` (config.rs lines 42-53): `Selected` mode when a name
list is supplied, `All` mode otherwise. -/
def Config.reposIter (cfg : Config) (names : Option (List String)) :
    List (Except RepoNotFound (String × Selection Repo)) :=
  match names with
  | some ns => reposSelected cfg ns
  | none => reposAll cfg

/-! ## Git operation results

The `GitResult` enum used by the dispatcher in src/cmd/sync.rs and
src/cmd/common.rs (matched as `GitResult::Error(key, msg)`). -/

/-- Modelled from the spec: the era of src/git.rs defining this enum is
absent from src/ (the file present holds the later
`Result<String, Error>` form); §3 of the spec defines the outcome as
"directory key + `Success` or `Failure(message)`", and §4.4 states that
every operation failure is classified into this value rather than
escaping as an exception. -/
inductive GitResult where
  | done (key : String)
  | error (key : String) (msg : String)
deriving Repr, DecidableEq

/-! ## The sync command pipeline (src/cmd/sync.rs) -/

/-- The filesystem as seen through `Path::is_dir`. -/
def FS := String → Bool

/-- The target-collection loop of `sync` (sync.rs lines 66-89): for each
resolved entry, an `Explicit` selection is always dispatched; an
`Optional` selection is dispatched only when its directory exists;
resolution errors dispatch nothing. -/
def syncTargets (cfg : Config) (fs : FS) (names : Option (List String)) :
    List (String × Repo) :=
  (cfg.reposIter names).filterMap (fun r =>
    match r with
    | .ok (dir, Selection.explicit repo) => some (dir, repo)
    | .ok (dir, Selection.optional repo) =>
      if fs dir then some (dir, repo) else none
    | .error _ => none)

/-- The `RepoNotFound` lines printed by the same loop (sync.rs
lines 83-88). -/
def syncNotFound (cfg : Config) (names : Option (List String)) :
    List RepoNotFound :=
  (cfg.reposIter names).filterMap (fun r =>
    match r with
    | .ok _ => none
    | .error nf => some nf)

/-- The banner printed before the first failing line (sync.rs line 97). -/
def syncBanner : String := "\nThe following sync got error!"

/-- The result-reporting loop of `sync` (sync.rs lines 92-103): the
`has_error` flag prints the banner before the first error; every error
prints one `key: msg` line; successes print nothing. -/
def syncReportLoop (hasError : Bool) : List GitResult → List String
  | [] => []
  | .done _ :: rest => syncReportLoop hasError rest
  | .error key msg :: rest =>
    (if hasError then [] else [syncBanner]) ++
      ((key ++ ": " ++ msg) :: syncReportLoop true rest)

/-- The lines printed by the reporting loop, started with
`has_error = false` (sync.rs line 93). -/
def syncReportLines (results : List GitResult) : List String :=
  syncReportLoop false results

/-- `sync` (sync.rs lines 62-107), with the subprocess outcomes supplied
by an oracle mapping each dispatched target to its `GitResult` (the
`join_all` barrier returns results in handle order): returns the printed
report lines together with the function's value, which is `Ok(())`
unconditionally (line 106). -/
def sync (cfg : Config) (fs : FS) (names : Option (List String))
    (oracle : String × Repo → GitResult) :
    List String × Except String Unit :=
  let results := (syncTargets cfg fs names).map oracle
  let nfLines := (syncNotFound cfg names).map
    (fun nf => nf.name ++ ": Repo not found")
  (nfLines ++ syncReportLines results, Except.ok ())

/-- The tail of `main` (main.rs lines 100-106): the command's result is
consumed by `unwrap_or_else`, which prints the error message; `main`
then returns normally in both branches, so the process exit code is `0`
whether the command returned `Ok` or `Err`. -/
def mainExitCode : Except String Unit → Nat
  | .ok _ => 0
  | .error _ => 0

/-! ## Git executor (src/git.rs) -/

/-- `std::process::ExitStatus`, as read by `process_output`: `code` is
the exit code, `none` when the process was terminated by a signal. -/
structure ExitStatus where
  code : Option Int
deriving Repr, DecidableEq

/-- `ExitStatus::success`: true exactly for a zero exit code. -/
def ExitStatus.success (st : ExitStatus) : Bool :=
  st.code = some 0

/-- `format!("{}", output.status)` (git.rs line 81): the `Display`
rendering of an exit status (the Unix form). -/
def ExitStatus.display (st : ExitStatus) : String :=
  match st.code with
  | some c => "exit status: " ++ toString c
  | none => "signal"

/-- `std::process::Output`: exit status plus captured stream bytes. -/
structure ProcOutput where
  status : ExitStatus
  stdout : List Nat
  stderr : List Nat
deriving Repr, DecidableEq

/-- Is `b` a UTF-8 continuation byte (`0x80..=0xBF`)? -/
def isCont (b : Nat) : Bool :=
  0x80 ≤ b && b ≤ 0xBF

/-- Validity of a byte sequence as UTF-8, as decided by
`String::from_utf8` (RFC 3629: no overlong forms, no surrogates, no code
points above U+10FFFF). -/
def utf8Valid : List Nat → Bool
  | [] => true
  | b :: rest =>
    if b ≤ 0x7F then utf8Valid rest
    else if 0xC2 ≤ b && b ≤ 0xDF then
      match rest with
      | b2 :: rest2 => isCont b2 && utf8Valid rest2
      | [] => false
    else if b == 0xE0 then
      match rest with
      | b2 :: b3 :: rest2 =>
        (0xA0 ≤ b2 && b2 ≤ 0xBF) && isCont b3 && utf8Valid rest2
      | _ => false
    else if (0xE1 ≤ b && b ≤ 0xEC) || b == 0xEE || b == 0xEF then
      match rest with
      | b2 :: b3 :: rest2 => isCont b2 && isCont b3 && utf8Valid rest2
      | _ => false
    else if b == 0xED then
      match rest with
      | b2 :: b3 :: rest2 =>
        (0x80 ≤ b2 && b2 ≤ 0x9F) && isCont b3 && utf8Valid rest2
      | _ => false
    else if b == 0xF0 then
      match rest with
      | b2 :: b3 :: b4 :: rest2 =>
        (0x90 ≤ b2 && b2 ≤ 0xBF) && isCont b3 && isCont b4 && utf8Valid rest2
      | _ => false
    else if 0xF1 ≤ b && b ≤ 0xF3 then
      match rest with
      | b2 :: b3 :: b4 :: rest2 =>
        isCont b2 && isCont b3 && isCont b4 && utf8Valid rest2
      | _ => false
    else if b == 0xF4 then
      match rest with
      | b2 :: b3 :: b4 :: rest2 =>
        (0x80 ≤ b2 && b2 ≤ 0x8F) && isCont b3 && isCont b4 && utf8Valid rest2
      | _ => false
    else false

/-- The failure side of `GitResult = Result<String, anyhow::Error>`
(git.rs lines 19-34 and 62-84): a propagated subprocess-launch
`io::Error`, a propagated `FromUtf8Error`, or a constructed
`GitError { key, msg }`.  Only the last variant carries the directory
key. -/
inductive GitErr where
  | io (msg : String)
  | utf8 (bytes : List Nat)
  | git (key : String) (msg : String)
deriving Repr, DecidableEq

/-- `process_output` (git.rs lines 62-84): `out.await?` propagates a
launch error as-is; `String::from_utf8(...)?` on stdout, then stderr,
propagates an encoding error as-is; otherwise a zero exit status yields
`Ok(key)` and any other status yields `Err(GitError { key, msg })` with
the stringified status as message. -/
def process_output (key : String) (out : Except String ProcOutput) :
    Except GitErr String :=
  match out with
  | .error e => Except.error (GitErr.io e)
  | .ok output =>
    if !utf8Valid output.stdout then Except.error (GitErr.utf8 output.stdout)
    else if !utf8Valid output.stderr then Except.error (GitErr.utf8 output.stderr)
    else if output.status.success then Except.ok key
    else Except.error (GitErr.git key (output.status.display))

/-! ## Clone-vs-pull decision and the bounded dispatcher
(src/cmd/sync.rs, src/cmd/common.rs) -/

/-- The git subprocess invocation chosen for one operation: `git -c
color.ui=always pull --ff-only` in the directory, or `git -c
color.ui=always clone <url> <dir>` (git.rs lines 36-60). -/
inductive GitAction where
  | pull (dir : String)
  | cloneInto (dir : String) (url : String)
deriving Repr, DecidableEq

/-- `sync_one` (sync.rs lines 109-115): pull when the directory exists,
clone from the resolved URL otherwise; the filesystem is consulted at
the moment of the call. -/
def sync_one (fs : FS) (dir : String) (repo : Repo) : GitAction :=
  if fs dir then GitAction.pull dir
  else GitAction.cloneInto dir repo.url

/-- Phase of one `BoundedSync` future (sync.rs lines 17-59): not yet
started (`inner == None`, permit not acquired), running (permit
acquired, inner future created and pending), or done (inner completed,
permit released). -/
inductive TaskPhase where
  | notStarted
  | running
  | done (r : GitResult)
deriving Repr, DecidableEq

/-- State of one scheduled operation, with ghost instrumentation: `act`
records the action the inner future was created with, and `acq`/`rel`
count permit acquisitions and releases performed for this task. -/
structure TaskState where
  dir : String
  repo : Repo
  phase : TaskPhase
  act : Option GitAction
  acq : Nat
  rel : Nat
deriving Repr, DecidableEq

/-- Shared state of one `sync` run: the semaphore's available permits
and each spawned `BoundedSync` future. -/
structure SyncState where
  avail : Nat
  tasks : List TaskState
deriving Repr, DecidableEq

def TaskPhase.isRunning : TaskPhase → Bool
  | .running => true
  | _ => false

/-- Number of operations concurrently executing. -/
def runningCount (s : SyncState) : Nat :=
  s.tasks.countP (fun t => t.phase.isRunning)

/-- `Semaphore::new(10)` (sync.rs line 64): the permit count handed to
the dispatcher.  The configuration is in scope in `sync` but its
`concurrency()` accessor is not consulted; the literal `10` is used. -/
def syncSemaphorePermits (_cfg : Config) : Nat := 10

/-- The initial dispatcher state built by `sync` (sync.rs lines 62-89):
every spawned `BoundedSync` starts with no permit and no inner future. -/
def syncInit (cfg : Config) (targets : List (String × Repo)) : SyncState :=
  { avail := syncSemaphorePermits cfg,
    tasks := targets.map (fun tr =>
      { dir := tr.1, repo := tr.2, phase := TaskPhase.notStarted,
        act := none, acq := 0, rel := 0 }) }

/-- One observable step of the dispatcher: a scheduler poll of one
`BoundedSync::poll` (sync.rs lines 41-59; `BoundedProc::poll` in
common.rs lines 42-59 is the same state machine).  A poll of a
not-started task first acquires a permit (possible only when one is
available; a poll finding none available changes nothing), then builds
the inner future from `sync_one` evaluated against the filesystem `fs`
current at this step and polls it once: the task either stays running or
completes immediately, releasing the permit within the same poll.  A
poll of a running task either finds the inner future still pending
(no change) or completes it and releases the permit.  The inner
future's `GitResult` is chosen by the environment. -/
inductive SyncStep (fs : FS) : SyncState → SyncState → Prop where
  | startPending (s : SyncState) (i : Nat) (t : TaskState)
      (hget : s.tasks[i]? = some t)
      (hph : t.phase = TaskPhase.notStarted)
      (havail : 0 < s.avail) :
      SyncStep fs s
        { avail := s.avail - 1,
          tasks := s.tasks.set i
            { t with phase := TaskPhase.running,
                     act := some (sync_one fs t.dir t.repo),
                     acq := t.acq + 1 } }
  | startDone (s : SyncState) (i : Nat) (t : TaskState) (r : GitResult)
      (hget : s.tasks[i]? = some t)
      (hph : t.phase = TaskPhase.notStarted)
      (havail : 0 < s.avail) :
      SyncStep fs s
        { avail := s.avail,
          tasks := s.tasks.set i
            { t with phase := TaskPhase.done r,
                     act := some (sync_one fs t.dir t.repo),
                     acq := t.acq + 1,
                     rel := t.rel + 1 } }
  | finish (s : SyncState) (i : Nat) (t : TaskState) (r : GitResult)
      (hget : s.tasks[i]? = some t)
      (hph : t.phase = TaskPhase.running) :
      SyncStep fs s
        { avail := s.avail + 1,
          tasks := s.tasks.set i
            { t with phase := TaskPhase.done r,
                     rel := t.rel + 1 } }

/-- Reachability along dispatcher steps; the filesystem may change
arbitrarily between steps (external actors). -/
def SyncReach : SyncState → SyncState → Prop :=
  Relation.ReflTransGen (fun s s' => ∃ fs, SyncStep fs s s')

/-! ## Helper lemmas -/

/-- In a list of keyed entries whose keys are pairwise distinct, a key
determines its entry. -/
theorem key_determines_entry {β : Type} {l : List (String × β)}
    (h : (l.map Prod.fst).Nodup) {n : String} {a b : β}
    (ha : (n, a) ∈ l) (hb : (n, b) ∈ l) : a = b := by
  induction l with
  | nil => cases ha
  | cons e l ih =>
    rw [List.map_cons, List.nodup_cons] at h
    rcases List.mem_cons.mp ha with ha1 | ha1 <;>
      rcases List.mem_cons.mp hb with hb1 | hb1
    · rw [← ha1] at hb1; exact congrArg Prod.snd hb1.symm
    · exfalso
      have hmem : n ∈ List.map Prod.fst l := List.mem_map.mpr ⟨(n, b), hb1, rfl⟩
      have he : e.1 = n := by rw [← ha1]
      exact h.1 (by rw [he]; exact hmem)
    · exfalso
      have hmem : n ∈ List.map Prod.fst l := List.mem_map.mpr ⟨(n, a), ha1, rfl⟩
      have he : e.1 = n := by rw [← hb1]
      exact h.1 (by rw [he]; exact hmem)
    · exact ih h.2 ha1 hb1

/-- The report loop prints nothing exactly when no outcome is an error. -/
theorem syncReportLoop_eq_nil (b : Bool) (rs : List GitResult) :
    syncReportLoop b rs = [] ↔ ∀ k m, GitResult.error k m ∉ rs := by
  induction rs generalizing b with
  | nil => simp [syncReportLoop]
  | cons r rest ih =>
    cases r with
    | done key =>
      rw [show syncReportLoop b (GitResult.done key :: rest) =
            syncReportLoop b rest from rfl, ih]
      constructor
      · intro h k m hm
        rcases List.mem_cons.mp hm with h1 | h1
        · cases h1
        · exact h k m h1
      · intro h k m hm
        exact h k m (List.mem_cons_of_mem _ hm)
    | error key msg =>
      constructor
      · intro h
        exfalso
        cases b <;> simp [syncReportLoop] at h
      · intro h
        exact absurd (List.mem_cons_self _ _) (h key msg)

/-! ## C9 -/

/-- C9: for every descriptor with hosting kind github, owner `o` and
project `p`, the rendered remote URL is exactly the string
`"https://github.com/" ++ o ++ "/" ++ p ++ ".git"`, bit for bit. -/
theorem github_url_bit_exact (o p : String) :
    (Repo.gitHub (GitHub.new o p)).url =
      "https://github.com/" ++ o ++ "/" ++ p ++ ".git" := by
  apply String.ext
  simp [Repo.url, GitHub.url, GitHub.new]

/-! ## C10 -/

/-- C10: configuration parsing rejects any concurrency value outside
`1..=65535` (the `u16` payload bounds plus the explicit zero check), and
a successful parse stores exactly the requested value, which therefore
lies in `1..=65535`. -/
theorem concurrency_parse_bounds (n : Int) :
    ((∃ c, Concurrency.deserialize n = Except.ok c) ↔ 1 ≤ n ∧ n ≤ 65535) ∧
    (∀ c, Concurrency.deserialize n = Except.ok c →
      1 ≤ c.value ∧ c.value ≤ 65535 ∧ (c.value : Int) = n) := by
  unfold Concurrency.deserialize
  constructor
  · constructor
    · rintro ⟨c, hc⟩
      split at hc
      · cases hc
      · split at hc
        · cases hc
        · omega
    · intro hn
      refine ⟨⟨n.toNat⟩, ?_⟩
      rw [if_neg (by omega), if_neg (by omega)]
  · intro c hc
    split at hc
    · cases hc
    · split at hc
      · cases hc
      · cases hc
        simp only
        omega

/-- Witness for C10 at the concrete value 123 (the value used by
`test_parse_config_with_custom_git_dir_concur`). -/
theorem concurrency_parse_bounds_witness :
    (∃ c, Concurrency.deserialize 123 = Except.ok c) ∧
    (1 ≤ (Concurrency.mk 123).value ∧ (Concurrency.mk 123).value ≤ 65535 ∧
      ((Concurrency.mk 123).value : Int) = 123) :=
  ⟨(concurrency_parse_bounds 123).1.mpr (by omega),
   (concurrency_parse_bounds 123).2 ⟨123⟩ (by rfl)⟩

/-! ## Concrete fixtures used by witnesses and counterexamples -/

def wRepo : Repo := Repo.gitHub (GitHub.new "foo" "bar")

def wCfg : Config := ⟨⟨10⟩, [("one", Selection.explicit wRepo)]⟩

def w8Cfg : Config :=
  ⟨⟨10⟩, [("one", Selection.explicit wRepo), ("opt", Selection.optional wRepo)]⟩

def wFS : FS := fun _ => true

def wFSNone : FS := fun _ => false

/-! ## C4 -/

/-- C4: targeted resolution produces exactly one element per requested
name, in request order; a found name yields `Ok` with the selection
forced to `Explicit`, and a missing name yields `RepoNotFound` for that
name, resolution continuing with the remaining names. -/
theorem targeted_resolution_per_name (cfg : Config) (names : List String) :
    (reposSelected cfg names).length = names.length ∧
    ∀ i, (h : i < names.length) →
      (reposSelected cfg names)[i]? =
        some (match List.lookup names[i] cfg.repos with
              | some sel => Except.ok (names[i], Selection.explicit sel.repo)
              | none => Except.error ⟨names[i]⟩) := by
  refine ⟨by simp [reposSelected], ?_⟩
  intro i h
  have hmap : (reposSelected cfg names)[i]? =
      some (reposSelectedNext cfg names[i]) := by
    simp only [reposSelected, List.getElem?_map,
      List.getElem?_eq_getElem h, Option.map_some']
  rw [hmap]
  unfold reposSelectedNext
  cases hl : List.lookup names[i] cfg.repos with
  | none => simp
  | some sel => cases sel <;> simp [Selection.repo]

/-- Witness for C4: registry `[("one", Explicit r)]`, requested names
`["one", "missing"]`. -/
theorem targeted_resolution_per_name_witness :
    (reposSelected wCfg ["one", "missing"]).length = 2 ∧
    (reposSelected wCfg ["one", "missing"])[0]? =
      some (Except.ok ("one", Selection.explicit wRepo)) ∧
    (reposSelected wCfg ["one", "missing"])[1]? =
      some (Except.error ⟨"missing"⟩) := by
  have h := targeted_resolution_per_name wCfg ["one", "missing"]
  have h0 := h.2 0 (by decide)
  have h1 := h.2 1 (by decide)
  refine ⟨h.1, ?_, ?_⟩
  · rw [h0]; rfl
  · rw [h1]; rfl

/-! ## C8 -/

/-- C8: in an untargeted run, an `Optional` registry entry is dispatched
iff its directory exists at resolution time, an `Explicit` entry is
always dispatched, and a name requested explicitly is always dispatched
(the request overrides the `Optional` gating). -/
theorem optional_existence_gating (cfg : Config) (fs : FS) (n : String) (r : Repo)
    (hnodup : (cfg.repos.map Prod.fst).Nodup) :
    ((n, Selection.optional r) ∈ cfg.repos →
      ((n, r) ∈ syncTargets cfg fs none ↔ fs n = true)) ∧
    ((n, Selection.explicit r) ∈ cfg.repos →
      (n, r) ∈ syncTargets cfg fs none) ∧
    (∀ (names : List String) (sel : Selection Repo),
      n ∈ names → List.lookup n cfg.repos = some sel →
      (n, sel.repo) ∈ syncTargets cfg fs (some names)) := by
  refine ⟨?_, ?_, ?_⟩
  · intro hmem
    constructor
    · intro htgt
      rcases List.mem_filterMap.mp htgt with ⟨a, hal, hfa⟩
      rcases List.mem_map.mp hal with ⟨e, hel, rfl⟩
      rcases e with ⟨n', sel'⟩
      cases sel' with
      | explicit r' =>
        simp only [Option.some.injEq, Prod.mk.injEq] at hfa
        obtain ⟨rfl, rfl⟩ := hfa
        exact absurd (key_determines_entry hnodup hel hmem) (by simp)
      | optional r' =>
        by_cases hd : fs n' = true
        · simp only [hd, if_true, Option.some.injEq, Prod.mk.injEq] at hfa
          obtain ⟨rfl, rfl⟩ := hfa
          exact hd
        · simp only [eq_false_of_ne_true hd, if_false] at hfa
          cases hfa
    · intro hd
      refine List.mem_filterMap.mpr
        ⟨Except.ok (n, Selection.optional r), List.mem_map_of_mem _ hmem, ?_⟩
      simp [hd]
  · intro hmem
    exact List.mem_filterMap.mpr
      ⟨Except.ok (n, Selection.explicit r), List.mem_map_of_mem _ hmem, rfl⟩
  · intro names sel hn hl
    refine List.mem_filterMap.mpr
      ⟨reposSelectedNext cfg n, List.mem_map_of_mem _ hn, ?_⟩
    unfold reposSelectedNext
    rw [hl]
    cases sel <;> simp [Selection.repo]

/-- Witness for C8: registry with one `Optional` entry whose directory
exists and one `Explicit` entry. -/
theorem optional_existence_gating_witness :
    (("opt", wRepo) ∈ syncTargets w8Cfg wFS none ↔ wFS "opt" = true) ∧
    ("one", wRepo) ∈ syncTargets w8Cfg wFS none ∧
    ("opt", wRepo) ∈ syncTargets w8Cfg wFSNone (some ["opt"]) := by
  have h1 := optional_existence_gating w8Cfg wFS "opt" wRepo (by decide)
  have h2 := optional_existence_gating w8Cfg wFS "one" wRepo (by decide)
  have h3 := optional_existence_gating w8Cfg wFSNone "opt" wRepo (by decide)
  exact ⟨h1.1 (by decide),
         h2.2.1 (by decide),
         h3.2.2 ["opt"] (Selection.optional wRepo) (by decide) (by decide)⟩

/-! ## C3 -/

/-- C3 (amended): once configuration loads, `sync` returns `Ok(())` and
the process exit status is `0` regardless of the operation outcomes and
of any `RepoNotFound` resolution errors; failures surface only in the
printed report, which is empty exactly when no outcome is an error. -/
theorem sync_result_always_ok (cfg : Config) (fs : FS)
    (names : Option (List String)) (oracle : String × Repo → GitResult) :
    (sync cfg fs names oracle).2 = Except.ok () ∧
    mainExitCode (sync cfg fs names oracle).2 = 0 ∧
    (syncReportLines ((syncTargets cfg fs names).map oracle) = [] ↔
      ∀ k m, GitResult.error k m ∉ (syncTargets cfg fs names).map oracle) :=
  ⟨rfl, rfl, syncReportLoop_eq_nil false _⟩

def cexOracle : String × Repo → GitResult := fun _ => GitResult.error "b" "x"

def cexCfg : Config := ⟨⟨10⟩, [("b", Selection.explicit wRepo)]⟩

/-- Counterexample to C3 as stated: a run whose single outcome is
`Failure("b", "x")` still has `sync` return `Ok(())` and the process
exit `0`; the claimed non-zero exit status on failure does not occur. -/
theorem claim_failure_exit_counterexample :
    GitResult.error "b" "x" ∈ (syncTargets cexCfg wFS none).map cexOracle ∧
    (sync cexCfg wFS none cexOracle).2 = Except.ok () ∧
    mainExitCode (sync cexCfg wFS none cexOracle).2 = 0 := by
  refine ⟨?_, rfl, rfl⟩
  decide

/-! ## C7 -/

/-- C7 (amended): `process_output` classifies a zero exit status as
`Ok(key)` and a non-zero exit status as `GitError(key, stringified
status)` only when both captured streams decode as UTF-8; a failure to
launch the subprocess propagates the launch error without the directory
key, and a stream that is not valid UTF-8 propagates the encoding error
without the directory key, whatever the exit status. -/
theorem process_output_classification (key : String) :
    (∀ st so se, utf8Valid so = true → utf8Valid se = true →
      process_output key (Except.ok ⟨st, so, se⟩) =
        (if st.success then Except.ok key
         else Except.error (GitErr.git key st.display))) ∧
    (∀ e, process_output key (Except.error e) = Except.error (GitErr.io e)) ∧
    (∀ st so se, utf8Valid so = false →
      process_output key (Except.ok ⟨st, so, se⟩) =
        Except.error (GitErr.utf8 so)) ∧
    (∀ st so se, utf8Valid so = true → utf8Valid se = false →
      process_output key (Except.ok ⟨st, so, se⟩) =
        Except.error (GitErr.utf8 se)) := by
  refine ⟨?_, fun e => rfl, ?_, ?_⟩
  · intro st so se hso hse
    simp [process_output, hso, hse]
  · intro st so se hso
    simp [process_output, hso]
  · intro st so se hso hse
    simp [process_output, hso, hse]

/-- Witness for C7: a zero exit with empty streams succeeds with the
key; a non-zero exit yields `GitError` with the stringified status. -/
theorem process_output_classification_witness :
    process_output "d" (Except.ok ⟨⟨some 0⟩, [], []⟩) = Except.ok "d" ∧
    process_output "d" (Except.ok ⟨⟨some 1⟩, [], []⟩) =
      Except.error (GitErr.git "d" "exit status: 1") ∧
    process_output "d" (Except.error "enoent") =
      Except.error (GitErr.io "enoent") := by
  have h := process_output_classification "d"
  refine ⟨?_, ?_, h.2.1 "enoent"⟩
  · rw [h.1 ⟨some 0⟩ [] [] (by decide) (by decide)]; rfl
  · rw [h.1 ⟨some 1⟩ [] [] (by decide) (by decide)]; rfl

/-- Counterexample to C7 as stated: a subprocess exiting with status
zero whose stdout is the invalid UTF-8 byte `0xFF` is not classified as
`Success`, and a launch failure is propagated as the raw launch error,
carrying no directory key. -/
theorem claim_outcome_classification_counterexample :
    process_output "d" (Except.ok ⟨⟨some 0⟩, [255], []⟩) ≠ Except.ok "d" ∧
    process_output "d" (Except.ok ⟨⟨some 0⟩, [255], []⟩) =
      Except.error (GitErr.utf8 [255]) ∧
    process_output "d" (Except.error "launch failed") =
      Except.error (GitErr.io "launch failed") := by
  refine ⟨?_, ?_, rfl⟩ <;> decide

/-! ## C5 -/

/-- `takeWhile`/`dropWhile` slide over a prefix all of whose elements
satisfy the predicate. -/
theorem takeWhile_append_all {p : Char → Bool} {l : List Char} (r : List Char)
    (h : ∀ a ∈ l, p a = true) :
    (l ++ r).takeWhile p = l ++ r.takeWhile p ∧
    (l ++ r).dropWhile p = r.dropWhile p := by
  induction l with
  | nil => simp
  | cons a l ih =>
    have pa : p a = true := h a (List.mem_cons_self a l)
    have ih2 := ih (fun x hx => h x (List.mem_cons_of_mem a hx))
    simp [List.takeWhile_cons, List.dropWhile_cons, pa, ih2.1, ih2.2]

theorem data_ne_nil {s : String} (h : s ≠ "") : s.data ≠ [] := by
  intro hd
  exact h (String.ext (by rw [hd]))

/-- The slash-free prefix kept by `takeWhile` holds no slash. -/
theorem count_takeWhile_slash_zero (cs : List Char) :
    (cs.takeWhile (· != '/')).count '/' = 0 := by
  rw [List.count_eq_zero]
  intro hmem
  have := List.mem_takeWhile_imp hmem
  simp at this

/-- C5: under registry key `key`, a spec `o/p` (both segments nonempty
and slash-free) parses to a descriptor with owner `o` and project `p`; a
bare spec `o` parses with the project defaulting to `key`; a spec with
two or more slashes, or one starting with a slash (empty owner), fails
with `InvalidRepo` carrying the original spec; a declared hosting kind
other than `"github"` fails with `UnknownType` carrying the kind. -/
theorem repo_spec_parsing (key o p spec type_ repo : String) :
    (o ≠ "" → o.data.all (· != '/') = true →
     p ≠ "" → p.data.all (· != '/') = true →
      Repo.tryFrom key (RepoSpec.simple (o ++ "/" ++ p)) =
        Except.ok (Repo.gitHub (GitHub.new o p))) ∧
    (o ≠ "" → o.data.all (· != '/') = true →
      Repo.tryFrom key (RepoSpec.simple o) =
        Except.ok (Repo.gitHub (GitHub.new o key))) ∧
    (2 ≤ spec.data.count '/' →
      Repo.tryFrom key (RepoSpec.simple spec) =
        Except.error (ConfigError.invalidRepo spec)) ∧
    (spec.data.head? = some '/' →
      Repo.tryFrom key (RepoSpec.simple spec) =
        Except.error (ConfigError.invalidRepo spec)) ∧
    (type_ ≠ "github" →
      Repo.tryFrom key (RepoSpec.normal type_ repo) =
        Except.error (ConfigError.unknownType type_)) := by
  refine ⟨?_, ?_, ?_, ?_, ?_⟩
  · intro ho hoall hp hpall
    have ho' := data_ne_nil ho
    have hp' := data_ne_nil hp
    have hoall' : ∀ a ∈ o.data, (a != '/') = true := List.all_eq_true.mp hoall
    have hdata : (o ++ "/" ++ p).data = o.data ++ '/' :: p.data := by
      rw [String.data_append, String.data_append,
        show ("/" : String).data = ['/'] from rfl]
      simp
    have h1 : ('/' :: p.data).takeWhile (· != '/') = [] := by
      simp [List.takeWhile_cons]
    have h2 : ('/' :: p.data).dropWhile (· != '/') = '/' :: p.data := by
      simp [List.dropWhile_cons]
    have hmre : matchRepoRe (o ++ "/" ++ p).data = some (o.data, some p.data) := by
      rw [hdata]
      unfold matchRepoRe
      rw [(takeWhile_append_all _ hoall').1, (takeWhile_append_all _ hoall').2,
        h1, h2, List.append_nil]
      rw [if_neg (by simp [ho'])]
      simp only
      rw [if_neg (by simp [hp']), if_pos hpall]
    unfold Repo.tryFrom
    simp only
    rw [hmre]
  · intro ho hoall
    have ho' := data_ne_nil ho
    have hoall' : ∀ a ∈ o.data, (a != '/') = true := List.all_eq_true.mp hoall
    have htk : o.data.takeWhile (· != '/') = o.data := by
      have := takeWhile_append_all [] hoall'
      simpa using this.1
    have hdr : o.data.dropWhile (· != '/') = [] := by
      have := takeWhile_append_all [] hoall'
      simpa using this.2
    have hmre : matchRepoRe o.data = some (o.data, none) := by
      unfold matchRepoRe
      rw [htk, hdr, if_neg (by simp [ho'])]
    unfold Repo.tryFrom
    simp only
    rw [hmre]
  · intro hcount
    have hmre : matchRepoRe spec.data = none := by
      unfold matchRepoRe
      by_cases hemp : (spec.data.takeWhile (· != '/')).isEmpty
      · rw [if_pos hemp]
      · rw [if_neg hemp]
        have hsplit : spec.data.takeWhile (· != '/') ++
            spec.data.dropWhile (· != '/') = spec.data :=
          List.takeWhile_append_dropWhile _ _
        cases hdw : spec.data.dropWhile (· != '/') with
        | nil =>
          exfalso
          rw [← hsplit, hdw, List.append_nil] at hcount
          rw [count_takeWhile_slash_zero] at hcount
          omega
        | cons c rest2 =>
          have hw : spec.data.dropWhile (· != '/') ≠ [] := by
            rw [hdw]; simp
          have hc : (c != '/') = false := by
            have hh := List.head_dropWhile_not (· != '/') spec.data hw
            have : (spec.data.dropWhile (· != '/')).head hw = c := by
              simp [hdw]
            rwa [this] at hh
          have hc' : c = '/' := by simpa using hc
          subst hc'
          rw [← hsplit, hdw, List.count_append,
            count_takeWhile_slash_zero] at hcount
          rw [List.count_cons_self] at hcount
          have hmem : '/' ∈ rest2 := List.count_pos_iff.mp (by omega)
          have hall : rest2.all (· != '/') = false := by
            cases hall2 : rest2.all (· != '/') with
            | false => rfl
            | true =>
              exfalso
              have := List.all_eq_true.mp hall2 '/' hmem
              simp at this
          simp [hall]
    unfold Repo.tryFrom
    simp only
    rw [hmre]
  · intro hhead
    have hmre : matchRepoRe spec.data = none := by
      unfold matchRepoRe
      cases hcs : spec.data with
      | nil => rw [hcs] at hhead; cases hhead
      | cons c tl =>
        rw [hcs] at hhead
        have hcslash : c = '/' := by simpa using hhead
        subst hcslash
        rw [if_pos (by simp [List.takeWhile_cons])]
    unfold Repo.tryFrom
    simp only
    rw [hmre]
  · intro ht
    unfold Repo.tryFrom
    simp [ht]

/-- Witness for C5 at the concrete specs of §8 of the spec. -/
theorem repo_spec_parsing_witness :
    Repo.tryFrom "dash" (RepoSpec.simple ("magnars" ++ "/" ++ "dash.el")) =
      Except.ok (Repo.gitHub (GitHub.new "magnars" "dash.el")) ∧
    Repo.tryFrom "use-package" (RepoSpec.simple "jweigley") =
      Except.ok (Repo.gitHub (GitHub.new "jweigley" "use-package")) ∧
    Repo.tryFrom "foo" (RepoSpec.simple "bar/baz/foo") =
      Except.error (ConfigError.invalidRepo "bar/baz/foo") ∧
    Repo.tryFrom "foo" (RepoSpec.simple "/x") =
      Except.error (ConfigError.invalidRepo "/x") ∧
    Repo.tryFrom "foo" (RepoSpec.normal "bitbucket" "bar/baz") =
      Except.error (ConfigError.unknownType "bitbucket") :=
  ⟨(repo_spec_parsing "dash" "magnars" "dash.el" "" "" "").1
      (by decide) (by decide) (by decide) (by decide),
   (repo_spec_parsing "use-package" "jweigley" "" "" "" "").2.1
      (by decide) (by decide),
   (repo_spec_parsing "foo" "" "" "bar/baz/foo" "" "").2.2.1 (by decide),
   (repo_spec_parsing "foo" "" "" "/x" "" "").2.2.2.1 (by decide),
   (repo_spec_parsing "foo" "" "" "" "bitbucket" "").2.2.2.2 (by decide)⟩

/-! ## Dispatcher invariants (C1, C2, C6) -/

/-- Replacing one known element shifts `countP` by the difference of the
two elements' predicate values. -/
theorem countP_set {α : Type} (q : α → Bool) :
    ∀ (l : List α) (i : Nat) (t a : α), l[i]? = some t →
      (l.set i a).countP q + (if q t then 1 else 0) =
        l.countP q + (if q a then 1 else 0) := by
  intro l
  induction l with
  | nil =>
    intro i t a h
    simp at h
  | cons x l ih =>
    intro i t a h
    cases i with
    | zero =>
      rw [List.getElem?_cons_zero] at h
      injection h with h
      subst h
      rw [List.set_cons_zero, List.countP_cons, List.countP_cons]
      omega
    | succ i =>
      rw [List.getElem?_cons_succ] at h
      have hrec := ih i t a h
      rw [List.set_cons_succ, List.countP_cons, List.countP_cons]
      omega

/-- Per-task permit accounting tied to the task's phase. -/
def TaskInv (t : TaskState) : Prop :=
  (t.phase = TaskPhase.notStarted → t.acq = 0 ∧ t.rel = 0 ∧ t.act = none) ∧
  (t.phase = TaskPhase.running → t.acq = 1 ∧ t.rel = 0) ∧
  (∀ r, t.phase = TaskPhase.done r → t.acq = 1 ∧ t.rel = 1)

/-- Dispatcher invariant: available permits plus running operations equal
the semaphore capacity, and every task's accounting matches its phase. -/
def StateInv (cap : Nat) (s : SyncState) : Prop :=
  s.avail + runningCount s = cap ∧ ∀ t ∈ s.tasks, TaskInv t

theorem stateInv_init (cfg : Config) (targets : List (String × Repo)) :
    StateInv (syncSemaphorePermits cfg) (syncInit cfg targets) := by
  constructor
  · have hzero : runningCount (syncInit cfg targets) = 0 := by
      unfold runningCount syncInit
      simp [List.countP_map, Function.comp, TaskPhase.isRunning]
    rw [hzero]
    rfl
  · intro t ht
    unfold syncInit at ht
    simp only [List.mem_map] at ht
    obtain ⟨tr, -, rfl⟩ := ht
    refine ⟨fun _ => ⟨rfl, rfl, rfl⟩, fun hp => ?_, fun r hp => ?_⟩ <;> cases hp

theorem stateInv_step {cap : Nat} {fs : FS} {s s' : SyncState}
    (hstep : SyncStep fs s s') (hinv : StateInv cap s) : StateInv cap s' := by
  obtain ⟨hcount, htasks⟩ := hinv
  unfold runningCount at hcount
  cases hstep with
  | startPending i t hget hph havail =>
    have hfresh := (htasks t (List.getElem?_mem hget)).1 hph
    have hc := countP_set (fun u => u.phase.isRunning) s.tasks i t
      { t with phase := TaskPhase.running,
               act := some (sync_one fs t.dir t.repo), acq := t.acq + 1 } hget
    simp only [] at hc
    have hnt : ¬ t.phase.isRunning = true := by
      simp [hph, TaskPhase.isRunning]
    rw [if_neg hnt, if_pos (show TaskPhase.running.isRunning = true from rfl),
      Nat.add_zero] at hc
    constructor
    · unfold runningCount
      dsimp only
      omega
    · intro u hu
      rcases List.mem_or_eq_of_mem_set hu with h | h
      · exact htasks u h
      · subst h
        refine ⟨fun hp => ?_, fun _ => ⟨?_, ?_⟩, fun r hp => ?_⟩
        · cases hp
        · rw [hfresh.1]
        · exact hfresh.2.1
        · cases hp
  | startDone i t r hget hph havail =>
    have hfresh := (htasks t (List.getElem?_mem hget)).1 hph
    have hc := countP_set (fun u => u.phase.isRunning) s.tasks i t
      { t with phase := TaskPhase.done r,
               act := some (sync_one fs t.dir t.repo),
               acq := t.acq + 1, rel := t.rel + 1 } hget
    simp only [] at hc
    have hnt : ¬ t.phase.isRunning = true := by
      simp [hph, TaskPhase.isRunning]
    have hnd : ¬ (TaskPhase.done r).isRunning = true := by
      simp [TaskPhase.isRunning]
    rw [if_neg hnt, if_neg hnd, Nat.add_zero, Nat.add_zero] at hc
    constructor
    · unfold runningCount
      dsimp only
      omega
    · intro u hu
      rcases List.mem_or_eq_of_mem_set hu with h | h
      · exact htasks u h
      · subst h
        refine ⟨fun hp => ?_, fun hp => ?_, fun r' _ => ⟨?_, ?_⟩⟩
        · cases hp
        · cases hp
        · rw [hfresh.1]
        · rw [hfresh.2.1]
  | finish i t r hget hph =>
    have hrun := (htasks t (List.getElem?_mem hget)).2.1 hph
    have hc := countP_set (fun u => u.phase.isRunning) s.tasks i t
      { t with phase := TaskPhase.done r, rel := t.rel + 1 } hget
    simp only [] at hc
    have hrt : t.phase.isRunning = true := by rw [hph]; rfl
    have hnd : ¬ (TaskPhase.done r).isRunning = true := by
      simp [TaskPhase.isRunning]
    rw [if_pos hrt, if_neg hnd, Nat.add_zero] at hc
    constructor
    · unfold runningCount
      dsimp only
      omega
    · intro u hu
      rcases List.mem_or_eq_of_mem_set hu with h | h
      · exact htasks u h
      · subst h
        refine ⟨fun hp => ?_, fun hp => ?_, fun r' _ => ⟨?_, ?_⟩⟩
        · cases hp
        · cases hp
        · exact hrun.1
        · rw [hrun.2]

theorem stateInv_reach {cfg : Config} {targets : List (String × Repo)}
    {s : SyncState} (h : SyncReach (syncInit cfg targets) s) :
    StateInv (syncSemaphorePermits cfg) s := by
  unfold SyncReach at h
  induction h with
  | refl => exact stateInv_init cfg targets
  | tail hr hstep ih =>
    obtain ⟨fs, hstep⟩ := hstep
    exact stateInv_step hstep ih

/-! ## C1 -/

/-- C1 (amended): in every state a `sync` run can reach, at most 10
operations are concurrently executing — 10 being the literal permit
count of `Semaphore::new(10)`, not the configured budget, which the
dispatcher never consults. -/
theorem sync_concurrency_cap (cfg : Config) (targets : List (String × Repo))
    (s : SyncState) (h : SyncReach (syncInit cfg targets) s) :
    runningCount s ≤ syncSemaphorePermits cfg ∧ syncSemaphorePermits cfg = 10 := by
  have hinv := (stateInv_reach h).1
  exact ⟨by omega, rfl⟩

/-- Witness for C1 (amended) at the initial state of a one-target run. -/
theorem sync_concurrency_cap_witness :
    runningCount (syncInit wCfg [("one", wRepo)]) ≤ syncSemaphorePermits wCfg ∧
    syncSemaphorePermits wCfg = 10 :=
  sync_concurrency_cap wCfg [("one", wRepo)] _ Relation.ReflTransGen.refl

def k1Cfg : Config := ⟨⟨1⟩, []⟩

def k1TaskA : TaskState :=
  { dir := "a", repo := wRepo, phase := TaskPhase.running,
    act := some (GitAction.cloneInto "a" wRepo.url), acq := 1, rel := 0 }

def k1TaskB : TaskState :=
  { dir := "b", repo := wRepo, phase := TaskPhase.running,
    act := some (GitAction.cloneInto "b" wRepo.url), acq := 1, rel := 0 }

def k1FreshB : TaskState :=
  { dir := "b", repo := wRepo, phase := TaskPhase.notStarted,
    act := none, acq := 0, rel := 0 }

def k1State1 : SyncState := { avail := 9, tasks := [k1TaskA, k1FreshB] }

def k1State2 : SyncState := { avail := 8, tasks := [k1TaskA, k1TaskB] }

/-- Counterexample to C1 as stated: a run whose configured budget is 1
reaches a state with 2 operations concurrently executing, because the
semaphore is created with the hard-coded permit count 10 and the
configured value is never read. -/
theorem claim_configured_budget_counterexample :
    k1Cfg.concurrency = 1 ∧
    SyncReach (syncInit k1Cfg [("a", wRepo), ("b", wRepo)]) k1State2 ∧
    runningCount k1State2 = 2 := by
  refine ⟨rfl, ?_, rfl⟩
  have h1 : SyncStep wFSNone (syncInit k1Cfg [("a", wRepo), ("b", wRepo)])
      k1State1 :=
    SyncStep.startPending (syncInit k1Cfg [("a", wRepo), ("b", wRepo)])
      0 _ rfl rfl (by decide)
  have h2 : SyncStep wFSNone k1State1 k1State2 :=
    SyncStep.startPending k1State1 1 _ rfl rfl (by decide)
  exact Relation.ReflTransGen.tail
    (Relation.ReflTransGen.single ⟨wFSNone, h1⟩) ⟨wFSNone, h2⟩

/-! ## C2 -/

/-- C2: along every run, a task that has finished (success or failure)
has acquired exactly one permit and released exactly one; a running task
holds its one permit unreleased; a task that has not started holds
nothing — the permit is released exactly once, at completion, never
leaked and never double-released. -/
theorem permit_release_exactly_once (cfg : Config)
    (targets : List (String × Repo)) (s : SyncState)
    (h : SyncReach (syncInit cfg targets) s) :
    ∀ t ∈ s.tasks,
      (∀ r, t.phase = TaskPhase.done r → t.acq = 1 ∧ t.rel = 1) ∧
      (t.phase = TaskPhase.running → t.acq = 1 ∧ t.rel = 0) ∧
      (t.phase = TaskPhase.notStarted → t.acq = 0 ∧ t.rel = 0) := by
  intro t ht
  have hinv := (stateInv_reach h).2 t ht
  exact ⟨hinv.2.2, hinv.2.1, fun hp => ⟨(hinv.1 hp).1, (hinv.1 hp).2.1⟩⟩

def k2Done : TaskState :=
  { dir := "a", repo := wRepo, phase := TaskPhase.done (GitResult.done "a"),
    act := some (GitAction.cloneInto "a" wRepo.url), acq := 1, rel := 1 }

def k2State : SyncState := { avail := 10, tasks := [k2Done] }

/-- Witness for C2: a concretely reached completed task has `acq = 1`
and `rel = 1`. -/
theorem permit_release_exactly_once_witness :
    k2Done.acq = 1 ∧ k2Done.rel = 1 := by
  have hstep : SyncStep wFSNone (syncInit wCfg [("a", wRepo)]) k2State :=
    SyncStep.startDone (syncInit wCfg [("a", wRepo)]) 0 _ (GitResult.done "a")
      rfl rfl (by decide)
  exact (permit_release_exactly_once wCfg [("a", wRepo)] k2State
      (Relation.ReflTransGen.single ⟨wFSNone, hstep⟩)
      k2Done (by decide)).1 (GitResult.done "a") rfl

/-! ## C6 -/

def raceState : SyncState :=
  { avail := 9,
    tasks := [{ dir := "d", repo := wRepo, phase := TaskPhase.running,
                act := some (GitAction.pull "d"), acq := 1, rel := 0 }] }

/-- C6: the clone-vs-pull branch is computed from the filesystem at the
step in which the operation begins executing — the poll that acquires
its permit and creates the inner future — not at scheduling time: any
task whose work starts during a step under filesystem `fs` starts the
action `sync_one fs`, and concretely a target scheduled while its
directory was absent (a clone, had it been decided then) but started
after the directory appeared performs a pull in that directory. -/
theorem clone_pull_decided_at_start :
    (∀ (fs : FS) (s s' : SyncState) (i : Nat) (t t' : TaskState)
       (a : GitAction),
      SyncStep fs s s' → s.tasks[i]? = some t → s'.tasks[i]? = some t' →
      t.act = none → t'.act = some a → a = sync_one fs t.dir t.repo) ∧
    (sync_one wFSNone "d" wRepo = GitAction.cloneInto "d" wRepo.url ∧
     SyncStep wFS (syncInit wCfg [("d", wRepo)]) raceState ∧
     raceState.tasks[0]?.map TaskState.act = some (some (GitAction.pull "d"))) := by
  constructor
  · intro fs s s' i t t' a hstep hget hget' hact hact'
    cases hstep with
    | startPending j u hju hph havail =>
      dsimp only at hget'
      by_cases hij : j = i
      · subst hij
        have hlen : j < s.tasks.length := (List.getElem?_eq_some.mp hju).1
        rw [List.getElem?_set_self (by simpa using hlen)] at hget'
        rw [hju] at hget
        injection hget with hget
        injection hget' with hget'
        subst hget
        rw [← hget'] at hact'
        injection hact' with hact'
        exact hact'.symm
      · rw [List.getElem?_set_ne hij] at hget'
        rw [hget] at hget'
        injection hget' with hget'
        rw [← hget'] at hact'
        rw [hact] at hact'
        cases hact'
    | startDone j u r hju hph havail =>
      dsimp only at hget'
      by_cases hij : j = i
      · subst hij
        have hlen : j < s.tasks.length := (List.getElem?_eq_some.mp hju).1
        rw [List.getElem?_set_self (by simpa using hlen)] at hget'
        rw [hju] at hget
        injection hget with hget
        injection hget' with hget'
        subst hget
        rw [← hget'] at hact'
        injection hact' with hact'
        exact hact'.symm
      · rw [List.getElem?_set_ne hij] at hget'
        rw [hget] at hget'
        injection hget' with hget'
        rw [← hget'] at hact'
        rw [hact] at hact'
        cases hact'
    | finish j u r hju hph =>
      dsimp only at hget'
      by_cases hij : j = i
      · subst hij
        have hlen : j < s.tasks.length := (List.getElem?_eq_some.mp hju).1
        rw [List.getElem?_set_self (by simpa using hlen)] at hget'
        rw [hju] at hget
        injection hget with hget
        injection hget' with hget'
        subst hget
        rw [← hget'] at hact'
        dsimp only at hact'
        rw [hact] at hact'
        cases hact'
      · rw [List.getElem?_set_ne hij] at hget'
        rw [hget] at hget'
        injection hget' with hget'
        rw [← hget'] at hact'
        rw [hact] at hact'
        cases hact'
  · refine ⟨rfl, ?_, rfl⟩
    exact SyncStep.startPending (syncInit wCfg [("d", wRepo)]) 0 _ rfl rfl
      (by decide)


/-- Witness for C6: the universally quantified clause applied to the
concrete race step contained in the theorem itself. -/
theorem clone_pull_decided_at_start_witness :
    GitAction.pull "d" = sync_one wFS "d" wRepo :=
  clone_pull_decided_at_start.1 wFS (syncInit wCfg [("d", wRepo)]) raceState 0
    _ _ (GitAction.pull "d") clone_pull_decided_at_start.2.2.1
    rfl rfl rfl rfl

end Gitcop
